import Mathlib

/-!
Verification development for the wf-student-data record synchronization and
SCD versioning engine.  The definitions below are shallow embeddings of the
Python source files `wf_student_data/utils.py`, `wf_student_data/postgres.py`
and `wf_student_data/core.py`:

* `compare_dataframes` embeds `utils.compare_dataframes` (the record differ);
* `Stmt` and the `compose_*_sql` functions embed the SQL composer;
* `select_row`, `select_rows`, `update_row`, `update_rows`, `delete_row`
  embed the row-level client operations, with the store abstracted as a
  function from statement and parameters to result rows;
* `Rec`, `TableState` and `update_records` / `start_records` / `end_records`
  embed the versioned record tables and the SCD engine;
* `Write`, `tc_try_body` and `update_tc_data` embed the batch
  synchronization orchestrator from `core.py`, with the external fetches and
  the store abstracted as `Except`-valued oracles.

Cell values are `Option Int` (`none` is SQL NULL / pandas NaN), natural keys
are tuples of integers, timestamps are naturals.
-/

namespace WfStudentData

/-- A cell value: `none` models SQL NULL / pandas NaN. -/
abbrev Val := Option Int

/-- A natural key: a tuple of integer identifier values. -/
abbrev Key := List Int

/-- A row of cell values, positionally aligned with a list of column names. -/
abbrev Row := List Val

/-- A keyed table (pandas `DataFrame` with an index): index level names,
column-index level names, column names, and rows keyed by natural key. -/
structure DataFrame where
  indexNames : List String
  columnLevelNames : List (Option String)
  columnNames : List String
  rows : List (Key × Row)
deriving DecidableEq, Repr

/-- Keys of a keyed table, in row order. -/
def dfKeys (t : DataFrame) : List Key := t.rows.map Prod.fst

/-- Equality of two name lists as sets (the source compares `set(...)`). -/
def sameSet {α : Type} [DecidableEq α] (a b : List α) : Bool :=
  a.all (fun x => decide (x ∈ b)) && b.all (fun x => decide (x ∈ a))

/-- First row stored under a key (pandas `.loc` row lookup). -/
def lookupKey (rows : List (Key × Row)) (k : Key) : Option Row :=
  match rows with
  | [] => none
  | (k2, v) :: rest => if k2 = k then some v else lookupKey rest k

/-- Position of a named column in the positional column list. -/
def colIdx (c : String) : List String → Option Nat
  | [] => none
  | c2 :: rest => if c2 = c then some 0 else (colIdx c rest).map (· + 1)

/-- Value of a row at a named column, given the positional column list. -/
def cellAt (cols : List String) (row : Row) (c : String) : Val :=
  match colIdx c cols with
  | some i => row.getD i none
  | none => none

/-- Value of a table at key `k`, column `c` (missing data reads as NULL). -/
def cellOf (t : DataFrame) (k : Key) (c : String) : Val :=
  cellAt t.columnNames ((lookupKey t.rows k).getD []) c

/-- `current.columns.intersection(updates.columns)` in calling order. -/
def commonColumns (current updates : DataFrame) : List String :=
  current.columnNames.filter (fun c => decide (c ∈ updates.columnNames))

/-- One key of the common block differs in some common column
(`current_aligned.compare(updates_aligned)` marks it). -/
def rowDiff (current updates : DataFrame) (k : Key) : Bool :=
  (commonColumns current updates).any
    (fun c => decide (cellOf current k c ≠ cellOf updates k c))

/-- `t.loc[keys, cols]`: re-select rows by key and columns by name. -/
def selectRows (t : DataFrame) (keys : List Key) (cols : List String) : DataFrame :=
  ⟨t.indexNames, t.columnLevelNames, cols,
    keys.map (fun k => (k, cols.map (fun c => cellOf t k c)))⟩

/-- Keys of `current` absent from `updates` (`current.index.difference`). -/
def deletedKeysOf (current updates : DataFrame) : List Key :=
  (dfKeys current).filter (fun k => decide (k ∉ dfKeys updates))

/-- Keys of `updates` absent from `current` (`updates.index.difference`). -/
def newKeysOf (current updates : DataFrame) : List Key :=
  (dfKeys updates).filter (fun k => decide (k ∉ dfKeys current))

/-- Keys present in both tables (`current.index.intersection`). -/
def commonKeysOf (current updates : DataFrame) : List Key :=
  (dfKeys current).filter (fun k => decide (k ∈ dfKeys updates))

/-- Common keys whose rows differ in some column. -/
def changedKeysOf (current updates : DataFrame) : List Key :=
  (commonKeysOf current updates).filter (fun k => rowDiff current updates k)

/-- Common keys whose rows agree in every column. -/
def unchangedKeysOf (current updates : DataFrame) : List Key :=
  (commonKeysOf current updates).filter (fun k => ! rowDiff current updates k)

/-- Embedding of `utils.compare_dataframes`: validates that index level
names, column level names and column sets match (as sets), then partitions
the union of the key sets into new / deleted / changed / unchanged and
returns the four corresponding row selections. -/
def compare_dataframes (current updates : DataFrame) :
    Except String (DataFrame × DataFrame × DataFrame × DataFrame) :=
  if sameSet current.indexNames updates.indexNames = false then
    .error "Index level names in updates do not match index level names in current"
  else if sameSet current.columnLevelNames updates.columnLevelNames = false then
    .error "Column level names in updates do not match column level names in current"
  else if sameSet current.columnNames updates.columnNames = false then
    .error "Column set in updates does not match column set in current"
  else
    let cols := commonColumns current updates
    .ok (selectRows updates (newKeysOf current updates) cols,
         selectRows current (deletedKeysOf current updates) cols,
         selectRows updates (changedKeysOf current updates) cols,
         selectRows updates (unchangedKeysOf current updates) cols)

/-! ### The SQL composer and row-level client operations -/

/-- Shape of a composed parameterized statement (`psycopg2.sql` object):
which clauses are present and over which identifier lists. -/
inductive Stmt where
  | selectStmt (schemaName tableName : String)
      (selectCols : Option (List String)) (matchCols : Option (List String))
  | insertStmt (schemaName tableName : String)
      (insertCols : Option (List String)) (returnCols : Option (List String))
  | updateStmt (schemaName tableName : String) (updateCols : List String)
      (matchCols : Option (List String)) (returnCols : Option (List String))
  | deleteStmt (schemaName tableName : String)
      (matchCols : Option (List String)) (returnCols : Option (List String))
deriving DecidableEq, Repr

/-- The `x is not None and len(x) > 0` guard used when a clause is added. -/
def guardNonempty (o : Option (List String)) : Option (List String) :=
  match o with
  | some l => if 0 < l.length then some l else none
  | none => none

/-- Embeds `compose_select_sql`: a `WHERE (cols) = (placeholders)` clause is
present exactly when a non-empty match column list is given. -/
def compose_select_sql (schemaName tableName : String)
    (selectCols matchCols : Option (List String)) : Stmt :=
  Stmt.selectStmt schemaName tableName (guardNonempty selectCols) (guardNonempty matchCols)

/-- Embeds `compose_insert_sql` (`DEFAULT VALUES` when no insert columns). -/
def compose_insert_sql (schemaName tableName : String)
    (insertCols returnCols : Option (List String)) : Stmt :=
  Stmt.insertStmt schemaName tableName (guardNonempty insertCols) (guardNonempty returnCols)

/-- Embeds `compose_update_sql`. -/
def compose_update_sql (schemaName tableName : String) (updateCols : List String)
    (matchCols returnCols : Option (List String)) : Stmt :=
  Stmt.updateStmt schemaName tableName updateCols
    (guardNonempty matchCols) (guardNonempty returnCols)

/-- Embeds `compose_delete_sql`. -/
def compose_delete_sql (schemaName tableName : String)
    (matchCols returnCols : Option (List String)) : Stmt :=
  Stmt.deleteStmt schemaName tableName (guardNonempty matchCols) (guardNonempty returnCols)

/-- The normalization `if x is not None and len(x) == 0: x = None` applied
to every optional list argument at the top of each row operation. -/
def noneIfEmpty {α : Type} (o : Option (List α)) : Option (List α) :=
  match o with
  | some l => if l.length = 0 then none else some l
  | none => none

/-- Embeds `PostgresClient.update_row`: raises unless both match columns and
match values are supplied and non-empty, then executes one UPDATE whose
parameters are the update values followed by the match values. -/
def update_row (schemaName tableName : String) (updateCols : List String)
    (updateVals : List Val) (matchCols : Option (List String))
    (matchVals : Option (List Val)) (returnCols : Option (List String)) :
    Except String (Stmt × List Val) :=
  let mc := noneIfEmpty matchCols
  let mv := noneIfEmpty matchVals
  let rc := noneIfEmpty returnCols
  if mc = none ∨ mv = none then
    .error "Must specify columns and values to match when updating single row"
  else
    .ok (compose_update_sql schemaName tableName updateCols mc rc,
         updateVals ++ (mv.getD []))

/-- Embeds `PostgresClient.delete_row`. -/
def delete_row (schemaName tableName : String) (matchCols : Option (List String))
    (matchVals : Option (List Val)) (returnCols : Option (List String)) :
    Except String (Stmt × List Val) :=
  let mc := noneIfEmpty matchCols
  let mv := noneIfEmpty matchVals
  let rc := noneIfEmpty returnCols
  if mc = none ∨ mv = none then
    .error "Must specify columns and values to match when deleting single row"
  else
    .ok (compose_delete_sql schemaName tableName mc rc, mv.getD [])

/-- Embeds `PostgresClient.select_row`: after the same validation, executes
the SELECT and returns `data_list[0]`; on an empty result the Python index
expression raises `IndexError`, embedded as an error value. -/
def select_row (dbExec : Stmt → List Val → List Row) (schemaName tableName : String)
    (selectCols matchCols : Option (List String)) (matchVals : Option (List Val)) :
    Except String Row :=
  let sc := noneIfEmpty selectCols
  let mc := noneIfEmpty matchCols
  let mv := noneIfEmpty matchVals
  if mc = none ∨ mv = none then
    .error "Must specify columns and values to match when selecting single row"
  else
    match dbExec (compose_select_sql schemaName tableName sc mc) (mv.getD []) with
    | [] => .error "IndexError: list index out of range"
    | r :: _ => .ok r

/-- The per-tuple loop of `select_rows`: one execution per match tuple,
keeping `data_list[0]` of each result (`IndexError` when a result is empty). -/
def selectRowsLoop (dbExec : Stmt → List Val → List Row) (stmt : Stmt) :
    List (List Val) → Except String (List Row)
  | [] => .ok []
  | p :: rest =>
    match dbExec stmt p with
    | [] => .error "IndexError: list index out of range"
    | r :: _ =>
      match selectRowsLoop dbExec stmt rest with
      | .error e => .error e
      | .ok rows2 => .ok (r :: rows2)

/-- Embeds `PostgresClient.select_rows`: with a match value list, executes
once per tuple and keeps the first row of each result; otherwise executes a
single unmatched SELECT and returns all rows. -/
def select_rows (dbExec : Stmt → List Val → List Row) (schemaName tableName : String)
    (selectCols matchCols : Option (List String))
    (matchValsList : Option (List (List Val))) : Except String (List Row) :=
  let sc := noneIfEmpty selectCols
  let mc := noneIfEmpty matchCols
  let mvl := noneIfEmpty matchValsList
  let stmt := compose_select_sql schemaName tableName sc mc
  match mvl with
  | some plist => selectRowsLoop dbExec stmt plist
  | none => .ok (dbExec stmt [])

/-- Embeds `PostgresClient.update_rows`: no length validation; when the
match value list is absent it is replaced by `[[]*len(update_values_list)]`,
which evaluates to the single-element list `[[]]`; the parameter batch is
the element-wise concatenation of the zip of the two lists. -/
def update_rows (schemaName tableName : String) (updateCols : List String)
    (updateValsList : List (List Val)) (matchCols : Option (List String))
    (matchValsList : Option (List (List Val))) (returnCols : Option (List String)) :
    Except String (Stmt × List (List Val)) :=
  let mc := noneIfEmpty matchCols
  let mvl := noneIfEmpty matchValsList
  let rc := noneIfEmpty returnCols
  let stmt := compose_update_sql schemaName tableName updateCols mc rc
  let mvl2 : List (List Val) :=
    match mvl with
    | none => [([] : List Val)]
    | some l => l
  .ok (stmt, (updateValsList.zip mvl2).map (fun p => p.1 ++ p.2))

/-! ### Versioned record tables and the SCD engine -/

/-- One stored row of a versioned record table: surrogate id, natural key,
payload values (positionally aligned with the value column names), and the
`[record_start, record_end)` version interval (`none` end means OPEN). -/
structure Rec where
  record_id : Nat
  key : Key
  vals : Row
  record_start : Nat
  record_end : Option Nat
deriving DecidableEq, Repr

/-- The full contents of one versioned record table, plus the next surrogate
id the store will generate. -/
structure TableState where
  records : List Rec
  nextId : Nat
deriving DecidableEq, Repr

/-- The currently OPEN records (`records['record_end'].isna()`). -/
def openRecs (st : TableState) : List Rec :=
  st.records.filter (fun r => decide (r.record_end = none))

/-- The OPEN subset re-keyed by the natural key and restricted to the value
columns: the `current_values` dataframe built inside `update_records`. -/
def currentValuesDf (indexNames valueNames : List String) (st : TableState) :
    DataFrame :=
  ⟨indexNames, [none], valueNames, (openRecs st).map (fun r => (r.key, r.vals))⟩

/-- Close a record (`record_end = update_time`), everything else unchanged. -/
def closeRec (t : Nat) (r : Rec) : Rec :=
  ⟨r.record_id, r.key, r.vals, r.record_start, some t⟩

/-- `end_record_ids`: ids of the OPEN records whose natural key belongs to
`changed ∪ deleted` (`current_records.loc[...].record_id.tolist()`). -/
def endRecordIdsOf (st : TableState) (endKeys : List Key) : List Nat :=
  ((openRecs st).filter (fun r => decide (r.key ∈ endKeys))).map
    (fun r => r.record_id)

/-- Effect of `end_records`: set `record_end` on the rows whose `record_id`
is listed (a no-op when the id list is empty). -/
def endedRecords (st : TableState) (t : Nat) (endKeys : List Key) : List Rec :=
  st.records.map
    (fun r => if r.record_id ∈ endRecordIdsOf st endKeys then closeRec t r else r)

/-- Effect of `start_records`: insert one OPEN record per value row, stamped
with `record_start = t`; the store assigns consecutive surrogate ids (a
no-op when the values are empty). -/
def startedRecords (nextId t : Nat) : List (Key × Row) → List Rec
  | [] => []
  | (k, v) :: rest => Rec.mk nextId k v t none :: startedRecords (nextId + 1) t rest

/-- Embedding of `PostgresClient.update_records`: fetch the table, restrict
to OPEN records, re-key by the natural key, diff the value columns against
`update_values`, end every OPEN record whose key is changed or deleted, and
start one record per changed or new row, all stamped with the same
`update_time` (defaulting to the current time `now` when not supplied). -/
def update_records (st : TableState) (indexNames valueNames : List String)
    (update_values : DataFrame) (update_time : Option Nat) (now : Nat) :
    Except String TableState :=
  let t := update_time.getD now
  match compare_dataframes (currentValuesDf indexNames valueNames st) update_values with
  | .error e => .error e
  | .ok (new_rows, deleted_rows, changed_rows, _unchanged_rows) =>
    let endKeys := dfKeys changed_rows ++ dfKeys deleted_rows
    let newValues := changed_rows.rows ++ new_rows.rows
    .ok ⟨endedRecords st t endKeys ++ startedRecords st.nextId t newValues,
         st.nextId + newValues.length⟩

/-- All records of one natural key, in storage (insertion) order. -/
def keyRecords (st : TableState) (k : Key) : List Rec :=
  st.records.filter (fun r => decide (r.key = k))

/-- The claimed contiguity property: every record but the last is closed and
its `record_end` equals the next record's `record_start`. -/
def chainEq : List Rec → Bool
  | [] => true
  | [_] => true
  | r :: r2 :: rest =>
    decide (r.record_end = some r2.record_start) && chainEq (r2 :: rest)

/-- The non-overlap property: every record but the last is closed and its
`record_end` is at most the next record's `record_start`. -/
def chainLe : List Rec → Bool
  | [] => true
  | [_] => true
  | r :: r2 :: rest =>
    (match r.record_end with
     | some e => decide (e ≤ r2.record_start)
     | none => false) && chainLe (r2 :: rest)

/-- Timestamps of one record are well-formed and bounded by `bound`. -/
def recTimesOk (bound : Nat) (r : Rec) : Bool :=
  decide (r.record_start ≤ bound) &&
  (match r.record_end with
   | some e => decide (r.record_start ≤ e) && decide (e ≤ bound)
   | none => true)

/-- Invariant of a versioned record table at a point where every timestamp
written so far is at most `bound`: surrogate ids are distinct and below the
generator, timestamps are ordered and bounded, and each natural key's
records form a non-overlapping version chain (so at most the last record of
each key is OPEN). -/
def Inv (st : TableState) (bound : Nat) : Prop :=
  (st.records.map (fun r => r.record_id)).Nodup ∧
  (∀ r ∈ st.records, r.record_id < st.nextId) ∧
  (∀ r ∈ st.records, recTimesOk bound r = true) ∧
  (∀ k : Key, chainLe (keyRecords st k) = true)

/-! ### The batch synchronization orchestrator -/

/-- One write sent through the run's shared connection: the run row insert,
a batched entity insert tagged with the run id, or the final run row end
timestamp update. -/
inductive Write where
  | insertRun (update_id : Nat) (update_start : Nat)
  | insertRows (tableName : String) (update_id : Nat) (rows : List Row)
  | setRunEnd (update_id : Nat) (update_end : Nat)
deriving DecidableEq, Repr

/-- The committed store: the log of committed writes. -/
abbrev Db := List Write

/-- The run id a write is tagged with. -/
def writeUpdateId : Write → Nat
  | .insertRun uid _ => uid
  | .insertRows _ uid _ => uid
  | .setRunEnd uid _ => uid

/-- Result of one orchestrator run: the propagated outcome, the committed
store afterwards, and whether the connection was closed. -/
structure RunOutcome where
  result : Except String Unit
  db : Db
  connClosed : Bool
deriving Repr

/-- The `try` block of `update_tc_data`: insert the run row, then fetch and
insert each entity table in source order (schools, classrooms, sessions,
users, children and child-parent links, classroom-child links), each row
batch tagged with the run id, and finally set the run row's end timestamp.
The external fetches and the store are `Except`-valued oracles; the first
failure aborts the block with that exception. On success it returns the
writes issued through the shared connection, in order. -/
def tc_try_body (update_id update_start update_end : Nat)
    (store : Write → Except String Unit)
    (fetch_school_data fetch_classroom_data fetch_session_data fetch_user_data :
      Except String (List Row))
    (fetch_child_data : Except String (List Row × List Row))
    (fetch_classroom_child_data : Except String (List Row)) :
    Except String (List Write) :=
  let w0 := Write.insertRun update_id update_start
  match store w0 with
  | .error e => .error e
  | .ok _ =>
  match fetch_school_data with
  | .error e => .error e
  | .ok schools =>
  let w1 := Write.insertRows "schools" update_id schools
  match store w1 with
  | .error e => .error e
  | .ok _ =>
  match fetch_classroom_data with
  | .error e => .error e
  | .ok classrooms =>
  let w2 := Write.insertRows "classrooms" update_id classrooms
  match store w2 with
  | .error e => .error e
  | .ok _ =>
  match fetch_session_data with
  | .error e => .error e
  | .ok sessions =>
  let w3 := Write.insertRows "sessions" update_id sessions
  match store w3 with
  | .error e => .error e
  | .ok _ =>
  match fetch_user_data with
  | .error e => .error e
  | .ok users =>
  let w4 := Write.insertRows "users" update_id users
  match store w4 with
  | .error e => .error e
  | .ok _ =>
  match fetch_child_data with
  | .error e => .error e
  | .ok childData =>
  let w5 := Write.insertRows "children" update_id childData.1
  match store w5 with
  | .error e => .error e
  | .ok _ =>
  let w6 := Write.insertRows "children_parents" update_id childData.2
  match store w6 with
  | .error e => .error e
  | .ok _ =>
  match fetch_classroom_child_data with
  | .error e => .error e
  | .ok classroomsChildren =>
  let w7 := Write.insertRows "classrooms_children" update_id classroomsChildren
  match store w7 with
  | .error e => .error e
  | .ok _ =>
  let w8 := Write.setRunEnd update_id update_end
  match store w8 with
  | .error e => .error e
  | .ok _ =>
  .ok [w0, w1, w2, w3, w4, w5, w6, w7, w8]

/-- Embedding of `core.update_tc_data`: run the `try` block on one shared
transactional connection; on any exception roll back (discard the pending
writes), close the connection and re-raise the original exception; on
success commit every pending write together and close the connection. -/
def update_tc_data (db : Db) (update_id update_start update_end : Nat)
    (store : Write → Except String Unit)
    (fetch_school_data fetch_classroom_data fetch_session_data fetch_user_data :
      Except String (List Row))
    (fetch_child_data : Except String (List Row × List Row))
    (fetch_classroom_child_data : Except String (List Row)) : RunOutcome :=
  match tc_try_body update_id update_start update_end store
      fetch_school_data fetch_classroom_data fetch_session_data fetch_user_data
      fetch_child_data fetch_classroom_child_data with
  | .error e => RunOutcome.mk (.error e) db true
  | .ok writes => RunOutcome.mk (.ok ()) (db ++ writes) true

/-! ### Helper lemmas about the differ -/

lemma map_fst_pair {β : Type} (f : Key → β) :
    ∀ ks : List Key, (ks.map (fun k => (k, f k))).map Prod.fst = ks
  | [] => rfl
  | k :: ks => by rw [List.map_cons, List.map_cons, map_fst_pair f ks]

lemma dfKeys_selectRows (t : DataFrame) (ks : List Key) (cols : List String) :
    dfKeys (selectRows t ks cols) = ks := by
  simp only [dfKeys, selectRows]
  exact map_fst_pair _ ks

lemma compare_ok_inv {current updates n d c u : DataFrame}
    (h : compare_dataframes current updates = .ok (n, d, c, u)) :
    sameSet current.indexNames updates.indexNames = true ∧
    sameSet current.columnLevelNames updates.columnLevelNames = true ∧
    sameSet current.columnNames updates.columnNames = true ∧
    n = selectRows updates (newKeysOf current updates) (commonColumns current updates) ∧
    d = selectRows current (deletedKeysOf current updates) (commonColumns current updates) ∧
    c = selectRows updates (changedKeysOf current updates) (commonColumns current updates) ∧
    u = selectRows updates (unchangedKeysOf current updates) (commonColumns current updates) := by
  unfold compare_dataframes at h
  split at h
  · exact absurd h (by simp)
  · split at h
    · exact absurd h (by simp)
    · split at h
      · exact absurd h (by simp)
      · simp only [Except.ok.injEq, Prod.mk.injEq] at h
        obtain ⟨hn, hd, hc, hu⟩ := h
        refine ⟨?_, ?_, ?_, hn.symm, hd.symm, hc.symm, hu.symm⟩ <;>
          simp_all [Bool.not_eq_false]

lemma mem_newKeysOf {current updates : DataFrame} {k : Key} :
    k ∈ newKeysOf current updates ↔ k ∈ dfKeys updates ∧ k ∉ dfKeys current := by
  simp [newKeysOf, List.mem_filter]

lemma mem_deletedKeysOf {current updates : DataFrame} {k : Key} :
    k ∈ deletedKeysOf current updates ↔ k ∈ dfKeys current ∧ k ∉ dfKeys updates := by
  simp [deletedKeysOf, List.mem_filter]

lemma mem_changedKeysOf {current updates : DataFrame} {k : Key} :
    k ∈ changedKeysOf current updates ↔
      (k ∈ dfKeys current ∧ k ∈ dfKeys updates) ∧ rowDiff current updates k = true := by
  simp only [changedKeysOf, commonKeysOf, List.mem_filter, decide_eq_true_eq]

lemma mem_unchangedKeysOf {current updates : DataFrame} {k : Key} :
    k ∈ unchangedKeysOf current updates ↔
      (k ∈ dfKeys current ∧ k ∈ dfKeys updates) ∧ rowDiff current updates k = false := by
  simp only [unchangedKeysOf, commonKeysOf, List.mem_filter, decide_eq_true_eq,
    Bool.not_eq_true']

lemma rowDiff_eq_true_iff {current updates : DataFrame} {k : Key} :
    rowDiff current updates k = true ↔
      ∃ col, col ∈ current.columnNames ∧ col ∈ updates.columnNames ∧
        cellOf current k col ≠ cellOf updates k col := by
  simp [rowDiff, commonColumns, List.any_eq_true, List.mem_filter, and_assoc]

lemma rowDiff_eq_false_iff {current updates : DataFrame} {k : Key} :
    rowDiff current updates k = false ↔
      ∀ col, col ∈ current.columnNames → col ∈ updates.columnNames →
        cellOf current k col = cellOf updates k col := by
  rw [← Bool.not_eq_true, rowDiff_eq_true_iff]
  push_neg
  rfl

/-- C2: the four key sets returned by the differ partition the union of the
current and update key sets, with the documented classification. -/
theorem diff_partition (current updates n d c u : DataFrame)
    (h : compare_dataframes current updates = .ok (n, d, c, u)) :
    (∀ k, ¬ (k ∈ dfKeys n ∧ k ∈ dfKeys d)) ∧
    (∀ k, ¬ (k ∈ dfKeys n ∧ k ∈ dfKeys c)) ∧
    (∀ k, ¬ (k ∈ dfKeys n ∧ k ∈ dfKeys u)) ∧
    (∀ k, ¬ (k ∈ dfKeys d ∧ k ∈ dfKeys c)) ∧
    (∀ k, ¬ (k ∈ dfKeys d ∧ k ∈ dfKeys u)) ∧
    (∀ k, ¬ (k ∈ dfKeys c ∧ k ∈ dfKeys u)) ∧
    (∀ k, (k ∈ dfKeys n ∨ k ∈ dfKeys d ∨ k ∈ dfKeys c ∨ k ∈ dfKeys u) ↔
      (k ∈ dfKeys current ∨ k ∈ dfKeys updates)) ∧
    (∀ k, k ∈ dfKeys d ↔ (k ∈ dfKeys current ∧ k ∉ dfKeys updates)) ∧
    (∀ k, k ∈ dfKeys n ↔ (k ∈ dfKeys updates ∧ k ∉ dfKeys current)) ∧
    (∀ k, k ∈ dfKeys current → k ∈ dfKeys updates →
      ((k ∈ dfKeys c ↔ ∃ col, col ∈ current.columnNames ∧ col ∈ updates.columnNames ∧
          cellOf current k col ≠ cellOf updates k col) ∧
       (k ∈ dfKeys u ↔ ∀ col, col ∈ current.columnNames → col ∈ updates.columnNames →
          cellOf current k col = cellOf updates k col))) := by
  obtain ⟨-, -, -, hn, hd, hc, hu⟩ := compare_ok_inv h
  subst hn hd hc hu
  simp only [dfKeys_selectRows]
  refine ⟨?_, ?_, ?_, ?_, ?_, ?_, ?_, ?_, ?_, ?_⟩
  · intro k
    simp only [mem_newKeysOf, mem_deletedKeysOf]
    tauto
  · intro k
    simp only [mem_newKeysOf, mem_changedKeysOf]
    tauto
  · intro k
    simp only [mem_newKeysOf, mem_unchangedKeysOf]
    tauto
  · intro k
    simp only [mem_deletedKeysOf, mem_changedKeysOf]
    tauto
  · intro k
    simp only [mem_deletedKeysOf, mem_unchangedKeysOf]
    tauto
  · intro k
    simp only [mem_changedKeysOf, mem_unchangedKeysOf]
    rintro ⟨⟨-, h1⟩, ⟨-, h2⟩⟩
    rw [h1] at h2
    exact absurd h2 (by simp)
  · intro k
    simp only [mem_newKeysOf, mem_deletedKeysOf, mem_changedKeysOf, mem_unchangedKeysOf]
    constructor
    · tauto
    · intro hk
      by_cases hcur : k ∈ dfKeys current
      · by_cases hupd : k ∈ dfKeys updates
        · cases hdiff : rowDiff current updates k
          · tauto
          · tauto
        · tauto
      · by_cases hupd : k ∈ dfKeys updates
        · tauto
        · tauto
  · intro k
    exact mem_deletedKeysOf
  · intro k
    exact mem_newKeysOf
  · intro k hcur hupd
    constructor
    · rw [mem_changedKeysOf, rowDiff_eq_true_iff]
      tauto
    · rw [mem_unchangedKeysOf, rowDiff_eq_false_iff]
      tauto

/-- C2 witness at a concrete diff: key 2 is classified new. -/
theorem diff_partition_witness :
    [2] ∈ dfKeys (DataFrame.mk ["id"] [none] ["name"] [([2], [some 7])]) ↔
      ([2] ∈ dfKeys (DataFrame.mk ["id"] [none] ["name"] [([1], [some 5]), ([2], [some 7])]) ∧
        [2] ∉ dfKeys (DataFrame.mk ["id"] [none] ["name"] [([1], [some 5])])) := by
  have h := diff_partition
    (DataFrame.mk ["id"] [none] ["name"] [([1], [some 5])])
    (DataFrame.mk ["id"] [none] ["name"] [([1], [some 5]), ([2], [some 7])])
    (DataFrame.mk ["id"] [none] ["name"] [([2], [some 7])])
    (DataFrame.mk ["id"] [none] ["name"] [])
    (DataFrame.mk ["id"] [none] ["name"] [])
    (DataFrame.mk ["id"] [none] ["name"] [([1], [some 5])])
    (by rfl)
  exact h.2.2.2.2.2.2.2.2.1 [2]

/-- C6: any set-level mismatch of index level names, column level names or
column sets makes the differ fail with an error, returning no diff result. -/
theorem diff_schema_mismatch_errors (current updates : DataFrame)
    (h : sameSet current.indexNames updates.indexNames = false ∨
         sameSet current.columnLevelNames updates.columnLevelNames = false ∨
         sameSet current.columnNames updates.columnNames = false) :
    ∃ msg, compare_dataframes current updates = .error msg := by
  unfold compare_dataframes
  by_cases h1 : sameSet current.indexNames updates.indexNames = false
  · rw [if_pos h1]
    exact ⟨_, rfl⟩
  · rw [if_neg h1]
    by_cases h2 : sameSet current.columnLevelNames updates.columnLevelNames = false
    · rw [if_pos h2]
      exact ⟨_, rfl⟩
    · rw [if_neg h2]
      rcases h with h | h | h
      · exact absurd h h1
      · exact absurd h h2
      · rw [if_pos h]
        exact ⟨_, rfl⟩

/-- C6 witness: mismatched column sets. -/
theorem diff_schema_mismatch_errors_witness :
    ∃ msg, compare_dataframes
      (DataFrame.mk ["id"] [none] ["name"] [])
      (DataFrame.mk ["id"] [none] ["first_name"] []) = .error msg :=
  diff_schema_mismatch_errors _ _ (Or.inr (Or.inr (by decide)))

/-! ### Theorems about the row-level client operations -/

/-- C7: a single-row update, delete or select whose match columns or match
values are absent or empty raises a `ValueError` before composing or
executing any statement. -/
theorem single_row_ops_require_match (dbExec : Stmt → List Val → List Row)
    (schemaName tableName : String) (updateCols : List String) (updateVals : List Val)
    (selectCols : Option (List String)) (matchCols : Option (List String))
    (matchVals : Option (List Val)) (returnCols : Option (List String))
    (h : noneIfEmpty matchCols = none ∨ noneIfEmpty matchVals = none) :
    update_row schemaName tableName updateCols updateVals matchCols matchVals returnCols =
      .error "Must specify columns and values to match when updating single row" ∧
    delete_row schemaName tableName matchCols matchVals returnCols =
      .error "Must specify columns and values to match when deleting single row" ∧
    select_row dbExec schemaName tableName selectCols matchCols matchVals =
      .error "Must specify columns and values to match when selecting single row" := by
  refine ⟨?_, ?_, ?_⟩ <;>
    · simp only [update_row, delete_row, select_row]
      rw [if_pos h]

/-- C7 witness: empty match value list. -/
theorem single_row_ops_require_match_witness :
    update_row "tc" "updates" ["update_end"] [some 3] (some ["update_id"]) (some []) none =
      .error "Must specify columns and values to match when updating single row" :=
  (single_row_ops_require_match (fun _ _ => []) "tc" "updates" ["update_end"] [some 3]
    none (some ["update_id"]) (some []) none (Or.inr rfl)).1

/-- C8 counterexample: `update_rows` given two update tuples and one match
tuple does not fail; it silently executes the single zipped parameter tuple. -/
theorem update_rows_length_mismatch_no_error :
    update_rows "tc" "t" ["record_end"] [[some 1], [some 2]]
      (some ["record_id"]) (some [[some 9]]) none =
      .ok (Stmt.updateStmt "tc" "t" ["record_end"] (some ["record_id"]) none,
        [[some 1, some 9]]) := rfl

/-- C8 amended: `update_rows` performs no length validation; with a present,
non-empty match value list the call succeeds and executes the element-wise
zip of the two lists, truncated to the shorter length. -/
theorem update_rows_zip_truncates (schemaName tableName : String)
    (updateCols : List String) (updateValsList : List (List Val))
    (matchCols : Option (List String)) (matchValsList : Option (List (List Val)))
    (mvl : List (List Val)) (returnCols : Option (List String))
    (h : noneIfEmpty matchValsList = some mvl) :
    update_rows schemaName tableName updateCols updateValsList matchCols
        matchValsList returnCols =
      .ok (compose_update_sql schemaName tableName updateCols (noneIfEmpty matchCols)
            (noneIfEmpty returnCols),
          (updateValsList.zip mvl).map (fun p => p.1 ++ p.2)) ∧
    ((updateValsList.zip mvl).map (fun p => p.1 ++ p.2)).length =
      min updateValsList.length mvl.length := by
  constructor
  · simp [update_rows, h]
  · simp

/-- C8 amended witness. -/
theorem update_rows_zip_truncates_witness :
    update_rows "tc" "t" ["record_end"] [[some 1], [some 2], [some 3]]
        (some ["record_id"]) (some [[some 8], [some 9]]) none =
      .ok (Stmt.updateStmt "tc" "t" ["record_end"] (some ["record_id"]) none,
        [[some 1, some 8], [some 2, some 9]]) :=
  ((update_rows_zip_truncates "tc" "t" ["record_end"] [[some 1], [some 2], [some 3]]
    (some ["record_id"]) (some [[some 8], [some 9]]) [[some 8], [some 9]] none rfl).1).trans
    (by rfl)

/-- C9 counterexample: with `match_column_names` absent but a present
two-tuple `match_values_list`, both parameter tuples are executed, so the
claimed truncation to at most one tuple does not happen in this case. -/
theorem update_rows_match_cols_absent_no_truncation :
    update_rows "tc" "t" ["record_end"] [[some 1], [some 2]]
      none (some [[some 7], [some 8]]) none =
      .ok (Stmt.updateStmt "tc" "t" ["record_end"] none none,
        [[some 1, some 7], [some 2, some 8]]) := rfl

/-- C9 amended: when `match_values_list` is absent (None or empty), the
substituted list `[[]*len(update_values_list)]` evaluates to the
single-element list `[[]]`, and zipping truncates the batch to its first
update tuple, silently dropping the rest. -/
theorem update_rows_absent_match_values_truncates (schemaName tableName : String)
    (updateCols : List String) (v1 v2 : List Val) (rest : List (List Val))
    (matchCols : Option (List String)) (matchValsList : Option (List (List Val)))
    (returnCols : Option (List String))
    (h : noneIfEmpty matchValsList = none) :
    update_rows schemaName tableName updateCols (v1 :: v2 :: rest) matchCols
        matchValsList returnCols =
      .ok (compose_update_sql schemaName tableName updateCols (noneIfEmpty matchCols)
            (noneIfEmpty returnCols), [v1]) := by
  simp [update_rows, h]

/-- C9 amended witness. -/
theorem update_rows_absent_match_values_truncates_witness :
    update_rows "tc" "t" ["record_end"] [[some 1], [some 2], [some 3]] none none none =
      .ok (Stmt.updateStmt "tc" "t" ["record_end"] none none, [[some 1]]) :=
  update_rows_absent_match_values_truncates "tc" "t" ["record_end"]
    [some 1] [some 2] [[some 3]] none none none rfl

lemma selectRowsLoop_error (dbExec : Stmt → List Val → List Row) (stmt : Stmt)
    (plist : List (List Val)) (hex : ∃ p ∈ plist, dbExec stmt p = []) :
    selectRowsLoop dbExec stmt plist = .error "IndexError: list index out of range" := by
  induction plist with
  | nil => simp at hex
  | cons q qs ih =>
    obtain ⟨p, hp, hpe⟩ := hex
    rcases List.mem_cons.mp hp with rfl | hp2
    · simp [selectRowsLoop, hpe]
    · cases hq : dbExec stmt q with
      | nil => simp [selectRowsLoop, hq]
      | cons r rest0 => simp [selectRowsLoop, hq, ih ⟨p, hp2, hpe⟩]

lemma selectRowsLoop_ok (dbExec : Stmt → List Val → List Row) (stmt : Stmt)
    (plist : List (List Val)) (hall : ∀ p ∈ plist, dbExec stmt p ≠ []) :
    selectRowsLoop dbExec stmt plist =
      .ok (plist.map (fun p => (dbExec stmt p).headD [])) := by
  induction plist with
  | nil => rfl
  | cons q qs ih =>
    cases hq : dbExec stmt q with
    | nil => exact absurd hq (hall q (by simp))
    | cons r rest0 =>
      simp [selectRowsLoop, hq, ih (fun p hp => hall p (by simp [hp]))]

/-- C10: a single-row select whose match tuple matches zero rows raises
`IndexError` instead of returning an empty result, and when several rows
match only the first is returned; `select_rows` with a non-empty match
value list does the same per tuple. -/
theorem select_empty_result_raises (dbExec : Stmt → List Val → List Row)
    (schemaName tableName : String) (selectCols matchCols : Option (List String))
    (matchVals : Option (List Val)) (matchValsList : Option (List (List Val)))
    (mcl : List String) (mvl : List Val) (plist : List (List Val))
    (hmc : noneIfEmpty matchCols = some mcl)
    (hmv : noneIfEmpty matchVals = some mvl)
    (hmvl : noneIfEmpty matchValsList = some plist) :
    (dbExec (compose_select_sql schemaName tableName (noneIfEmpty selectCols) (some mcl))
        mvl = [] →
      select_row dbExec schemaName tableName selectCols matchCols matchVals =
        .error "IndexError: list index out of range") ∧
    (∀ r rest,
      dbExec (compose_select_sql schemaName tableName (noneIfEmpty selectCols) (some mcl))
          mvl = r :: rest →
      select_row dbExec schemaName tableName selectCols matchCols matchVals = .ok r) ∧
    ((∃ p ∈ plist,
        dbExec (compose_select_sql schemaName tableName (noneIfEmpty selectCols) (some mcl))
          p = []) →
      select_rows dbExec schemaName tableName selectCols matchCols matchValsList =
        .error "IndexError: list index out of range") ∧
    ((∀ p ∈ plist,
        dbExec (compose_select_sql schemaName tableName (noneIfEmpty selectCols) (some mcl))
          p ≠ []) →
      select_rows dbExec schemaName tableName selectCols matchCols matchValsList =
        .ok (plist.map (fun p =>
          (dbExec (compose_select_sql schemaName tableName (noneIfEmpty selectCols)
            (some mcl)) p).headD []))) := by
  refine ⟨?_, ?_, ?_, ?_⟩
  · intro h0
    simp [select_row, hmc, hmv, h0]
  · intro r rest h0
    simp [select_row, hmc, hmv, h0]
  · intro hex
    simp only [select_rows, hmc, hmvl]
    exact selectRowsLoop_error _ _ _ hex
  · intro hall
    simp only [select_rows, hmc, hmvl]
    exact selectRowsLoop_ok _ _ _ hall

/-- C10 witness: a store with zero matching rows makes `select_row` raise. -/
theorem select_empty_result_raises_witness :
    select_row (fun _ _ => []) "tc" "schools" none (some ["school_id"]) (some [some 5]) =
      .error "IndexError: list index out of range" :=
  (select_empty_result_raises (fun _ _ => []) "tc" "schools" none (some ["school_id"])
    (some [some 5]) (some [[some 5]]) ["school_id"] [some 5] [[some 5]]
    rfl rfl rfl).1 rfl

/-! ### Theorems about the orchestrator -/

lemma tc_try_body_ok (update_id update_start update_end : Nat)
    (store : Write → Except String Unit)
    (f1 f2 f3 f4 : Except String (List Row))
    (f5 : Except String (List Row × List Row)) (f6 : Except String (List Row))
    (ws : List Write)
    (h : tc_try_body update_id update_start update_end store f1 f2 f3 f4 f5 f6 = .ok ws) :
    Write.setRunEnd update_id update_end ∈ ws ∧ ∀ w ∈ ws, writeUpdateId w = update_id := by
  unfold tc_try_body at h
  repeat' split at h
  all_goals try simp_all [writeUpdateId]
  all_goals repeat' split at h
  all_goals try simp_all [writeUpdateId]
  all_goals subst h
  all_goals exact ⟨by simp, by intro w hw; fin_cases hw <;> rfl⟩

/-- C3: on any exception inside the run the orchestrator rolls back, closes
the connection and propagates the original exception, leaving the committed
store exactly as before the run (in particular with no rows tagged with the
run's id, given a fresh id); on success, every pending write — all tagged
with the run id, including the run row's end timestamp — is committed
together. -/
theorem run_rollback_atomicity (db : Db) (update_id update_start update_end : Nat)
    (store : Write → Except String Unit)
    (f1 f2 f3 f4 : Except String (List Row))
    (f5 : Except String (List Row × List Row)) (f6 : Except String (List Row)) :
    (∀ e, tc_try_body update_id update_start update_end store f1 f2 f3 f4 f5 f6 = .error e →
      update_tc_data db update_id update_start update_end store f1 f2 f3 f4 f5 f6 =
        RunOutcome.mk (.error e) db true ∧
      ((∀ w ∈ db, writeUpdateId w ≠ update_id) →
        ∀ w ∈ (update_tc_data db update_id update_start update_end store
                f1 f2 f3 f4 f5 f6).db,
          writeUpdateId w ≠ update_id)) ∧
    (∀ ws, tc_try_body update_id update_start update_end store f1 f2 f3 f4 f5 f6 = .ok ws →
      update_tc_data db update_id update_start update_end store f1 f2 f3 f4 f5 f6 =
        RunOutcome.mk (.ok ()) (db ++ ws) true ∧
      Write.setRunEnd update_id update_end ∈ ws ∧
      ∀ w ∈ ws, writeUpdateId w = update_id) := by
  constructor
  · intro e he
    constructor
    · simp [update_tc_data, he]
    · intro hfresh w hw
      simp only [update_tc_data, he] at hw
      exact hfresh w hw
  · intro ws hws
    obtain ⟨h1, h2⟩ := tc_try_body_ok update_id update_start update_end store
      f1 f2 f3 f4 f5 f6 ws hws
    exact ⟨by simp [update_tc_data, hws], h1, h2⟩

/-- C3 witness: a failing school fetch rolls the run back. -/
theorem run_rollback_atomicity_witness :
    update_tc_data [] 1 10 20 (fun _ => .ok ()) (.error "boom") (.ok []) (.ok [])
      (.ok []) (.ok ([], [])) (.ok []) = RunOutcome.mk (.error "boom") [] true :=
  ((run_rollback_atomicity [] 1 10 20 (fun _ => .ok ()) (.error "boom") (.ok []) (.ok [])
    (.ok []) (.ok ([], [])) (.ok [])).1 "boom" rfl).1

/-! ### Helper lemmas for the SCD engine -/

lemma filter_of_map {α β : Type} (g : α → β) (p : β → Bool) :
    ∀ l : List α, (l.map g).filter p = (l.filter (fun a => p (g a))).map g
  | [] => rfl
  | a :: l => by
    rw [List.map_cons, List.filter_cons, List.filter_cons]
    cases h : p (g a) <;> simp [h, filter_of_map g p l]

lemma length_filter_cons_le {α : Type} (p : α → Bool) (a : α) (l : List α) :
    (l.filter p).length ≤ ((a :: l).filter p).length := by
  rw [List.filter_cons]
  split <;> simp

lemma nodup_map_of_filter_le_one {β : Type} [DecidableEq β] (f : Rec → β) :
    ∀ l : List Rec, (∀ k, ((l.filter (fun r => decide (f r = k))).length ≤ 1)) →
      (l.map f).Nodup
  | [], _ => by simp
  | a :: l, h => by
    rw [List.map_cons, List.nodup_cons]
    constructor
    · intro hmem
      obtain ⟨b, hb, hfb⟩ := List.mem_map.mp hmem
      have h1 := h (f a)
      rw [List.filter_cons, if_pos (by simp : decide (f a = f a) = true),
        List.length_cons] at h1
      have hzero : (l.filter (fun r => decide (f r = f a))).length = 0 := by
        omega
      have hbmem : b ∈ l.filter (fun r => decide (f r = f a)) :=
        List.mem_filter.mpr ⟨hb, by simp [hfb]⟩
      rw [List.length_eq_zero.mp hzero] at hbmem
      simp at hbmem
    · exact nodup_map_of_filter_le_one f l
        (fun k => le_trans (length_filter_cons_le _ a l) (h k))

lemma chainLe_cons_cons {r r2 : Rec} {rest : List Rec} :
    chainLe (r :: r2 :: rest) = true ↔
      (∃ e, r.record_end = some e ∧ e ≤ r2.record_start) ∧
        chainLe (r2 :: rest) = true := by
  simp only [chainLe, Bool.and_eq_true]
  constructor
  · rintro ⟨h1, h2⟩
    cases he : r.record_end with
    | none => rw [he] at h1; simp at h1
    | some e =>
      rw [he] at h1
      simp only [decide_eq_true_eq] at h1
      exact ⟨⟨e, rfl, h1⟩, h2⟩
  · rintro ⟨⟨e, he, hle⟩, h2⟩
    rw [he]
    simp [hle, h2]

lemma chainLe_open_count :
    ∀ rs : List Rec, chainLe rs = true →
      (rs.filter (fun r => decide (r.record_end = none))).length ≤ 1
  | [], _ => by simp
  | [r], _ => by
    rw [List.filter_cons]
    split <;> simp
  | r :: r2 :: rest, h => by
    obtain ⟨⟨e, he, -⟩, h2⟩ := chainLe_cons_cons.mp h
    rw [List.filter_cons]
    have : decide (r.record_end = none) = false := by simp [he]
    rw [this]
    simpa using chainLe_open_count (r2 :: rest) h2

lemma chainLe_map (g : Rec → Rec) (hstart : ∀ r, (g r).record_start = r.record_start)
    (hclosed : ∀ r e, r.record_end = some e → g r = r) :
    ∀ rs : List Rec, chainLe rs = true → chainLe (rs.map g) = true
  | [], _ => rfl
  | [_], _ => rfl
  | r :: r2 :: rest, h => by
    obtain ⟨⟨e, he, hle⟩, h2⟩ := chainLe_cons_cons.mp h
    rw [List.map_cons, List.map_cons]
    refine chainLe_cons_cons.mpr ⟨⟨e, ?_, ?_⟩, ?_⟩
    · rw [hclosed r e he]
      exact he
    · rw [hstart r2]
      exact hle
    · have := chainLe_map g hstart hclosed (r2 :: rest) h2
      rw [List.map_cons] at this
      exact this

lemma chainLe_append_single (s : Rec) :
    ∀ rs : List Rec, chainLe rs = true →
      (∀ r ∈ rs, ∃ e, r.record_end = some e ∧ e ≤ s.record_start) →
      chainLe (rs ++ [s]) = true
  | [], _, _ => rfl
  | [r], _, hall => by
    obtain ⟨e, he, hle⟩ := hall r (by simp)
    exact chainLe_cons_cons.mpr ⟨⟨e, he, hle⟩, rfl⟩
  | r :: r2 :: rest, h, hall => by
    obtain ⟨hl, h2⟩ := chainLe_cons_cons.mp h
    have htail := chainLe_append_single s (r2 :: rest) h2
      (fun r3 hr3 => hall r3 (List.mem_cons_of_mem _ hr3))
    exact chainLe_cons_cons.mpr ⟨hl, by simpa using htail⟩

lemma sameSet_eq_true {α : Type} [DecidableEq α] {a b : List α} :
    sameSet a b = true ↔ (∀ x ∈ a, x ∈ b) ∧ (∀ x ∈ b, x ∈ a) := by
  simp [sameSet, List.all_eq_true]

lemma lookupKey_mem : ∀ {rows : List (Key × Row)} {k : Key} {v : Row},
    lookupKey rows k = some v → (k, v) ∈ rows
  | [], _, _, h => by simp [lookupKey] at h
  | (k2, w) :: rest, k, v, h => by
    unfold lookupKey at h
    split at h
    · next heq =>
      obtain rfl := Option.some.inj h
      simp [heq]
    · exact List.mem_cons_of_mem _ (lookupKey_mem h)

lemma lookupKey_isSome : ∀ {rows : List (Key × Row)} {k : Key},
    k ∈ rows.map Prod.fst → ∃ v, lookupKey rows k = some v
  | [], _, h => by simp at h
  | (k2, w) :: rest, k, h => by
    unfold lookupKey
    by_cases heq : k2 = k
    · exact ⟨w, if_pos heq⟩
    · rw [if_neg heq]
      apply lookupKey_isSome
      rw [List.map_cons] at h
      rcases List.mem_cons.mp h with h1 | h1
      · exact absurd h1.symm heq
      · exact h1

lemma lookupKey_nodup : ∀ {rows : List (Key × Row)},
    (rows.map Prod.fst).Nodup → ∀ {k : Key} {v : Row},
      (k, v) ∈ rows → lookupKey rows k = some v
  | [], _, _, _, h => by simp at h
  | (k2, w) :: rest, hnd, k, v, h => by
    rw [List.map_cons, List.nodup_cons] at hnd
    rcases List.mem_cons.mp h with h1 | h1
    · injection h1 with hk hv
      subst hk
      subst hv
      unfold lookupKey
      rw [if_pos rfl]
    · by_cases heq : k2 = k
      · subst heq
        exact absurd (List.mem_map.mpr ⟨(k2, v), h1, rfl⟩) hnd.1
      · unfold lookupKey
        rw [if_neg heq]
        exact lookupKey_nodup hnd.2 h1

lemma cellAt_map_self (f : String → Val) :
    ∀ (cols : List String) (c : String), c ∈ cols →
      cellAt cols (cols.map f) c = f c := by
  intro cols
  induction cols with
  | nil => intro c hc; simp at hc
  | cons c0 cols ih =>
    intro c hc
    by_cases h0 : c0 = c
    · subst h0
      simp [cellAt, colIdx]
    · have hc' : c ∈ cols := by
        rcases List.mem_cons.mp hc with h1 | h1
        · exact absurd h1.symm h0
        · exact h1
      have hrec := ih c hc'
      unfold cellAt at hrec ⊢
      rw [List.map_cons]
      unfold colIdx
      rw [if_neg h0]
      cases hf : colIdx c cols with
      | none => rw [hf] at hrec; simpa using hrec
      | some i =>
        rw [hf] at hrec
        simpa using hrec

/-- Records of one key within a plain record list. -/
def keyRecsOf (l : List Rec) (k : Key) : List Rec :=
  l.filter (fun r => decide (r.key = k))

lemma keyRecords_eq (st : TableState) (k : Key) :
    keyRecords st k = keyRecsOf st.records k := rfl

lemma keyRecsOf_append (a b : List Rec) (k : Key) :
    keyRecsOf (a ++ b) k = keyRecsOf a k ++ keyRecsOf b k :=
  List.filter_append a b

lemma keyRecsOf_map_keep (g : Rec → Rec) (hkey : ∀ r, (g r).key = r.key)
    (l : List Rec) (k : Key) :
    keyRecsOf (l.map g) k = (keyRecsOf l k).map g := by
  unfold keyRecsOf
  rw [filter_of_map]
  congr 1
  exact List.filter_congr (fun r _ => by rw [hkey])

lemma keyRecsOf_sub {l : List Rec} {k : Key} {r : Rec} (h : r ∈ keyRecsOf l k) :
    r ∈ l ∧ r.key = k := by
  have h2 := List.mem_filter.mp h
  exact ⟨h2.1, by simpa using h2.2⟩

lemma keyRecsOf_le_one_of_nodup :
    ∀ {l : List Rec}, ((l.map (fun r => r.key)).Nodup) →
      ∀ k, (keyRecsOf l k).length ≤ 1
  | [], _, k => by simp [keyRecsOf]
  | r :: l, hnd, k => by
    rw [List.map_cons, List.nodup_cons] at hnd
    unfold keyRecsOf
    rw [List.filter_cons]
    by_cases hk : r.key = k
    · rw [if_pos (by simp [hk])]
      subst hk
      have hnil : l.filter (fun r2 => decide (r2.key = r.key)) = [] :=
        List.filter_eq_nil.mpr (fun a ha => by
          simp only [decide_eq_true_eq]
          intro hc
          exact hnd.1 (List.mem_map.mpr ⟨a, ha, hc⟩))
      simp [hnil]
    · rw [if_neg (by simp [hk])]
      exact keyRecsOf_le_one_of_nodup hnd.2 k

lemma startedRecords_mem {t : Nat} :
    ∀ {nid : Nat} {nv : List (Key × Row)} {r : Rec},
      r ∈ startedRecords nid t nv →
      (r.key, r.vals) ∈ nv ∧ r.record_start = t ∧ r.record_end = none ∧
        nid ≤ r.record_id ∧ r.record_id < nid + nv.length
  | _, [], r, h => by simp [startedRecords] at h
  | nid, (k, v) :: rest, r, h => by
    unfold startedRecords at h
    rcases List.mem_cons.mp h with h1 | h1
    · subst h1
      exact ⟨by simp, rfl, rfl, Nat.le_refl _, by simp⟩
    · obtain ⟨ha, hb, hc, hd, he⟩ := startedRecords_mem h1
      refine ⟨List.mem_cons_of_mem _ ha, hb, hc, by omega, ?_⟩
      rw [List.length_cons]
      omega

lemma startedRecords_map_key (t : Nat) :
    ∀ (nid : Nat) (nv : List (Key × Row)),
      (startedRecords nid t nv).map (fun r => r.key) = nv.map Prod.fst
  | _, [] => rfl
  | nid, (k, v) :: rest => by
    simp [startedRecords, startedRecords_map_key t (nid + 1) rest]

lemma startedRecords_map_id (t : Nat) :
    ∀ (nid : Nat) (nv : List (Key × Row)),
      (startedRecords nid t nv).map (fun r => r.record_id) =
        List.range' nid nv.length
  | nid, [] => by simp [startedRecords]
  | nid, (k, v) :: rest => by
    rw [List.length_cons, List.range'_succ]
    simp [startedRecords, startedRecords_map_id t (nid + 1) rest]

lemma startedRecords_of_mem (t : Nat) :
    ∀ (nid : Nat) (nv : List (Key × Row)) (k : Key) (v : Row),
      (k, v) ∈ nv → ∃ r ∈ startedRecords nid t nv, r.key = k ∧ r.vals = v
  | _, [], k, v, h => by simp at h
  | nid, (k0, v0) :: rest, k, v, h => by
    unfold startedRecords
    rcases List.mem_cons.mp h with h1 | h1
    · injection h1 with hk hv
      subst hk
      subst hv
      exact ⟨Rec.mk nid k v t none, by simp, rfl, rfl⟩
    · obtain ⟨r, hr, hrk, hrv⟩ := startedRecords_of_mem t (nid + 1) rest k v h1
      exact ⟨r, List.mem_cons_of_mem _ hr, hrk, hrv⟩

lemma map_fst_pairs {α β γ : Type} (f : α → β) (g : α → γ) :
    ∀ l : List α, (l.map (fun a => (f a, g a))).map Prod.fst = l.map f
  | [] => rfl
  | a :: l => by simp [map_fst_pairs f g l]

lemma dfKeys_currentValuesDf (idx val : List String) (st : TableState) :
    dfKeys (currentValuesDf idx val st) = (openRecs st).map (fun r => r.key) := by
  unfold dfKeys currentValuesDf
  exact map_fst_pairs _ _ _

lemma mem_endRecordIdsOf {st : TableState} {endKeys : List Key}
    (hid : (st.records.map (fun r => r.record_id)).Nodup)
    {r : Rec} (hr : r ∈ st.records) :
    r.record_id ∈ endRecordIdsOf st endKeys ↔
      (r.record_end = none ∧ r.key ∈ endKeys) := by
  constructor
  · intro hmem
    obtain ⟨r2, hr2, hrid⟩ := List.mem_map.mp hmem
    have hr2a := List.mem_filter.mp hr2
    have hr2b := List.mem_filter.mp hr2a.1
    have heq : r2 = r := List.inj_on_of_nodup_map hid hr2b.1 hr hrid
    subst heq
    exact ⟨by simpa using hr2b.2, by simpa using hr2a.2⟩
  · rintro ⟨hopen, hkey⟩
    exact List.mem_map.mpr ⟨r,
      List.mem_filter.mpr ⟨List.mem_filter.mpr ⟨hr, by simp [hopen]⟩, by simp [hkey]⟩, rfl⟩

/-- Semantic form of the per-record effect of `end_records` inside
`update_records`: close a record exactly when it is OPEN and its natural key
is among the end keys. -/
def closeIf (t : Nat) (eks : List Key) (r : Rec) : Rec :=
  if r.record_end = none ∧ r.key ∈ eks then closeRec t r else r

lemma closeIf_key (t : Nat) (eks : List Key) (r : Rec) :
    (closeIf t eks r).key = r.key := by
  unfold closeIf
  split <;> rfl

lemma closeIf_start (t : Nat) (eks : List Key) (r : Rec) :
    (closeIf t eks r).record_start = r.record_start := by
  unfold closeIf
  split <;> rfl

lemma closeIf_id (t : Nat) (eks : List Key) (r : Rec) :
    (closeIf t eks r).record_id = r.record_id := by
  unfold closeIf
  split <;> rfl

lemma closeIf_closed (t : Nat) (eks : List Key) (r : Rec) (e : Nat)
    (he : r.record_end = some e) : closeIf t eks r = r := by
  unfold closeIf
  rw [if_neg]
  rintro ⟨h1, -⟩
  rw [he] at h1
  cases h1

lemma endedRecords_eq_map (st : TableState) (t : Nat) (eks : List Key)
    (hid : (st.records.map (fun r => r.record_id)).Nodup) :
    endedRecords st t eks = st.records.map (closeIf t eks) := by
  unfold endedRecords closeIf
  apply List.map_congr_left
  intro r hr
  by_cases hc : r.record_end = none ∧ r.key ∈ eks
  · rw [if_pos ((mem_endRecordIdsOf hid hr).mpr hc), if_pos hc]
  · rw [if_neg (fun hmem => hc ((mem_endRecordIdsOf hid hr).mp hmem)), if_neg hc]

lemma recTimesOk_elim {bound : Nat} {r : Rec} (h : recTimesOk bound r = true) :
    r.record_start ≤ bound ∧
      ∀ e, r.record_end = some e → r.record_start ≤ e ∧ e ≤ bound := by
  unfold recTimesOk at h
  rw [Bool.and_eq_true] at h
  refine ⟨by simpa using h.1, ?_⟩
  intro e he
  have h2 := h.2
  rw [he] at h2
  simpa using h2

lemma recTimesOk_intro {bound : Nat} {r : Rec} (h1 : r.record_start ≤ bound)
    (h2 : ∀ e, r.record_end = some e → r.record_start ≤ e ∧ e ≤ bound) :
    recTimesOk bound r = true := by
  unfold recTimesOk
  rw [Bool.and_eq_true]
  refine ⟨by simpa, ?_⟩
  cases he : r.record_end with
  | none => rfl
  | some e => simp [h2 e he]

lemma recTimesOk_mono {b1 b2 : Nat} (h : b1 ≤ b2) {r : Rec}
    (hr : recTimesOk b1 r = true) : recTimesOk b2 r = true := by
  obtain ⟨h1, h2⟩ := recTimesOk_elim hr
  exact recTimesOk_intro (le_trans h1 h)
    (fun e he => ⟨(h2 e he).1, le_trans (h2 e he).2 h⟩)

/-- The value rows started by `update_records`: the changed rows followed by
the new rows, each re-selected from `updates` over the common columns. -/
def newValuesOf (cur U : DataFrame) : List (Key × Row) :=
  (selectRows U (changedKeysOf cur U) (commonColumns cur U)).rows ++
  (selectRows U (newKeysOf cur U) (commonColumns cur U)).rows

lemma newValuesOf_map_fst (cur U : DataFrame) :
    (newValuesOf cur U).map Prod.fst = changedKeysOf cur U ++ newKeysOf cur U := by
  unfold newValuesOf selectRows
  rw [List.map_append, map_fst_pair, map_fst_pair]

lemma update_records_ok_elim {st : TableState} {idx val : List String}
    {U : DataFrame} {ut : Option Nat} {now : Nat} {st' : TableState}
    (h : update_records st idx val U ut now = .ok st') :
    ∃ n d c u, compare_dataframes (currentValuesDf idx val st) U = .ok (n, d, c, u) ∧
      st' = ⟨endedRecords st (ut.getD now) (dfKeys c ++ dfKeys d) ++
             startedRecords st.nextId (ut.getD now) (c.rows ++ n.rows),
             st.nextId + (c.rows ++ n.rows).length⟩ := by
  unfold update_records at h
  split at h
  · exact absurd h (by simp)
  · next n d c u heq =>
    refine ⟨n, d, c, u, heq, ?_⟩
    have := Except.ok.inj h
    exact this.symm

lemma compare_dataframes_ok_of_checks {cur U : DataFrame}
    (h1 : sameSet cur.indexNames U.indexNames = true)
    (h2 : sameSet cur.columnLevelNames U.columnLevelNames = true)
    (h3 : sameSet cur.columnNames U.columnNames = true) :
    compare_dataframes cur U =
      .ok (selectRows U (newKeysOf cur U) (commonColumns cur U),
           selectRows cur (deletedKeysOf cur U) (commonColumns cur U),
           selectRows U (changedKeysOf cur U) (commonColumns cur U),
           selectRows U (unchangedKeysOf cur U) (commonColumns cur U)) := by
  unfold compare_dataframes
  rw [h1, h2, h3]
  simp

/-- `update_records` in fully explicit form, given that the diff succeeded. -/
lemma update_records_ok_explicit {st : TableState} {idx val : List String}
    {U : DataFrame} {ut : Option Nat} {now : Nat} {st' : TableState}
    (h : update_records st idx val U ut now = .ok st') :
    sameSet (currentValuesDf idx val st).indexNames U.indexNames = true ∧
    sameSet (currentValuesDf idx val st).columnLevelNames U.columnLevelNames = true ∧
    sameSet (currentValuesDf idx val st).columnNames U.columnNames = true ∧
    st' = ⟨endedRecords st (ut.getD now)
             (changedKeysOf (currentValuesDf idx val st) U ++
              deletedKeysOf (currentValuesDf idx val st) U) ++
           startedRecords st.nextId (ut.getD now)
             (newValuesOf (currentValuesDf idx val st) U),
           st.nextId + (newValuesOf (currentValuesDf idx val st) U).length⟩ := by
  obtain ⟨n, d, c, u, hcmp, hst⟩ := update_records_ok_elim h
  obtain ⟨h1, h2, h3, hn, hd, hc, hu⟩ := compare_ok_inv hcmp
  subst hn hd hc hu
  refine ⟨h1, h2, h3, ?_⟩
  rw [hst]
  simp only [dfKeys_selectRows]
  rfl

/-- C1 (amended): one `update_records` call preserves the versioned-table
invariant for monotone timestamps: surrogate ids stay distinct, every key
keeps at most one OPEN record, every non-final record of a key is closed,
and the version intervals of each key never overlap (each closed record's
end is at most the next record's start; equality can fail when a key is
deleted and later re-added). When the update set is empty, the call closes
every OPEN record and opens nothing. -/
theorem scd_chain_invariant (st st' : TableState) (idx val : List String)
    (U : DataFrame) (ut : Option Nat) (now T : Nat)
    (hInv : Inv st T) (hT : T ≤ ut.getD now) (hU : (dfKeys U).Nodup)
    (h : update_records st idx val U ut now = .ok st') :
    Inv st' (ut.getD now) ∧
    (∀ k, ((keyRecords st' k).filter
      (fun r => decide (r.record_end = none))).length ≤ 1) ∧
    (U.rows = [] →
      (∀ r ∈ st'.records, r.record_end ≠ none) ∧
      st'.records.length = st.records.length) := by
  obtain ⟨hidN, hidLt, htimes, hchain⟩ := hInv
  obtain ⟨-, -, -, hst⟩ := update_records_ok_explicit h
  set t := ut.getD now with htdef
  set cur := currentValuesDf idx val st with hcurdef
  set eks := changedKeysOf cur U ++ deletedKeysOf cur U with heksdef
  set nv := newValuesOf cur U with hnvdef
  have hE : endedRecords st t eks = st.records.map (closeIf t eks) :=
    endedRecords_eq_map st t eks hidN
  -- the open records of `st` have pairwise distinct keys
  have hopenNd : ((openRecs st).map (fun r => r.key)).Nodup := by
    apply nodup_map_of_filter_le_one
    intro k
    have hck := chainLe_open_count (keyRecords st k) (hchain k)
    have hcomm : (openRecs st).filter (fun r => decide (r.key = k)) =
        (keyRecords st k).filter (fun r => decide (r.record_end = none)) := by
      unfold openRecs keyRecords
      rw [List.filter_filter, List.filter_filter]
      exact List.filter_congr (fun r _ => by rw [Bool.and_comm])
    rw [hcomm]
    exact hck
  have hcurKeys : dfKeys cur = (openRecs st).map (fun r => r.key) :=
    dfKeys_currentValuesDf idx val st
  have hcurNd : (dfKeys cur).Nodup := by
    rw [hcurKeys]
    exact hopenNd
  have hnvKeys : nv.map Prod.fst = changedKeysOf cur U ++ newKeysOf cur U :=
    newValuesOf_map_fst cur U
  have hnvNd : (nv.map Prod.fst).Nodup := by
    rw [hnvKeys]
    refine List.Nodup.append ?_ ?_ ?_
    · exact List.Nodup.filter _ (List.Nodup.filter _ hcurNd)
    · exact List.Nodup.filter _ hU
    · intro k hk1 hk2
      exact (mem_newKeysOf.mp hk2).2 (mem_changedKeysOf.mp hk1).1.1
  have hSkeys : (startedRecords st.nextId t nv).map (fun r => r.key) =
      nv.map Prod.fst := startedRecords_map_key t st.nextId nv
  -- decomposition of each key's record list in the new state
  have hdecomp : ∀ k, keyRecords st' k =
      (keyRecords st k).map (closeIf t eks) ++
        keyRecsOf (startedRecords st.nextId t nv) k := by
    intro k
    rw [keyRecords_eq, hst, keyRecsOf_append, hE,
      keyRecsOf_map_keep _ (closeIf_key t eks), keyRecords_eq]
  -- the chain invariant holds for every key in the new state
  have hchain' : ∀ k, chainLe (keyRecords st' k) = true := by
    intro k
    rw [hdecomp k]
    have hrs := hchain k
    have hSlen : (keyRecsOf (startedRecords st.nextId t nv) k).length ≤ 1 := by
      apply keyRecsOf_le_one_of_nodup
      rw [hSkeys]
      exact hnvNd
    cases hSK : keyRecsOf (startedRecords st.nextId t nv) k with
    | nil =>
      rw [List.append_nil]
      exact chainLe_map _ (closeIf_start t eks) (closeIf_closed t eks) _ hrs
    | cons s rest2 =>
      have hrest2 : rest2 = [] := by
        rw [hSK] at hSlen
        rw [List.length_cons] at hSlen
        exact List.length_eq_zero.mp (by omega)
      subst hrest2
      have hsmem : s ∈ keyRecsOf (startedRecords st.nextId t nv) k := by
        rw [hSK]
        exact List.mem_cons_self s []
      obtain ⟨hs1, hs2⟩ := keyRecsOf_sub hsmem
      obtain ⟨hsnv, hsstart, hsend, -, -⟩ := startedRecords_mem hs1
      have hknv : k ∈ changedKeysOf cur U ++ newKeysOf cur U := by
        rw [← hnvKeys]
        exact hs2 ▸ List.mem_map.mpr ⟨(s.key, s.vals), hsnv, rfl⟩
      apply chainLe_append_single
      · exact chainLe_map _ (closeIf_start t eks) (closeIf_closed t eks) _ hrs
      · intro r' hr'
        obtain ⟨r, hrmem, rfl⟩ := List.mem_map.mp hr'
        obtain ⟨hrrec, hrk⟩ := keyRecsOf_sub (by rw [← keyRecords_eq]; exact hrmem)
        rw [hsstart]
        by_cases hop : r.record_end = none
        · have hkcur : k ∈ dfKeys cur := by
            rw [hcurKeys]
            exact List.mem_map.mpr
              ⟨r, List.mem_filter.mpr ⟨hrrec, by simp [hop]⟩, hrk⟩
          have hkeks : k ∈ eks := by
            rcases List.mem_append.mp hknv with hk | hk
            · exact List.mem_append.mpr (Or.inl hk)
            · exact absurd hkcur (mem_newKeysOf.mp hk).2
          unfold closeIf
          rw [if_pos ⟨hop, hrk ▸ hkeks⟩]
          exact ⟨t, rfl, le_refl t⟩
        · obtain ⟨e, he⟩ := Option.ne_none_iff_exists'.mp hop
          rw [closeIf_closed t eks r e he]
          have heT := ((recTimesOk_elim (htimes r hrrec)).2 e he).2
          exact ⟨e, he, le_trans heT hT⟩
  have hidmap : List.map ((fun r2 => r2.record_id) ∘ closeIf t eks) st.records =
      List.map (fun r => r.record_id) st.records :=
    List.map_congr_left (fun r _ => closeIf_id t eks r)
  refine ⟨⟨?_, ?_, ?_, ?_⟩, ?_, ?_⟩
  -- distinct surrogate ids
  · rw [hst]
    rw [List.map_append]
    refine List.Nodup.append ?_ ?_ ?_
    · rw [hE, List.map_map, hidmap]
      exact hidN
    · rw [startedRecords_map_id]
      exact List.nodup_range' _ _ _ (by omega)
    · intro x hx1 hx2
      rw [hE, List.map_map, hidmap] at hx1
      obtain ⟨r, hr, rfl⟩ := List.mem_map.mp hx1
      rw [startedRecords_map_id] at hx2
      have := (List.mem_range'_1.mp hx2).1
      exact absurd (hidLt r hr) (by omega)
  -- ids below the generator
  · intro r hr
    rw [hst] at hr
    have hnext : st'.nextId = st.nextId + nv.length := by rw [hst]
    rw [hnext]
    rcases List.mem_append.mp hr with hr1 | hr1
    · rw [hE] at hr1
      obtain ⟨r0, hr0, rfl⟩ := List.mem_map.mp hr1
      rw [closeIf_id]
      have := hidLt r0 hr0
      omega
    · obtain ⟨-, -, -, -, hlt⟩ := startedRecords_mem hr1
      exact hlt
  -- timestamps ordered and bounded
  · intro r hr
    rw [hst] at hr
    rcases List.mem_append.mp hr with hr1 | hr1
    · rw [hE] at hr1
      obtain ⟨r0, hr0, rfl⟩ := List.mem_map.mp hr1
      have ht0 := htimes r0 hr0
      have hstart0 : r0.record_start ≤ t := le_trans (recTimesOk_elim ht0).1 hT
      unfold closeIf
      split
      · apply recTimesOk_intro
        · exact hstart0
        · intro e he
          have he2 : t = e := Option.some.inj he
          exact ⟨by rw [← he2]; exact hstart0, by rw [← he2]⟩
      · exact recTimesOk_mono hT ht0
    · obtain ⟨-, hstart, hend, -, -⟩ := startedRecords_mem hr1
      apply recTimesOk_intro
      · rw [hstart]
      · intro e he
        rw [hend] at he
        cases he
  -- per-key chains
  · intro k
    exact hchain' k
  -- at most one OPEN record per key
  · intro k
    exact chainLe_open_count _ (hchain' k)
  -- an empty update set closes everything and opens nothing
  · intro hUe
    have hdfU : dfKeys U = [] := by
      unfold dfKeys
      rw [hUe]
      rfl
    have hck : changedKeysOf cur U = [] := by
      unfold changedKeysOf commonKeysOf
      rw [hdfU]
      rw [show List.filter (fun k => decide (k ∈ ([] : List Key))) (dfKeys cur) = []
        from List.filter_eq_nil.mpr (fun a _ => by simp)]
      rfl
    have hnk : newKeysOf cur U = [] := by
      unfold newKeysOf
      rw [hdfU]
      rfl
    have hnv0 : nv = [] := by
      rw [hnvdef]
      unfold newValuesOf selectRows
      rw [hck, hnk]
      rfl
    have hdk : deletedKeysOf cur U = dfKeys cur := by
      unfold deletedKeysOf
      exact List.filter_eq_self.mpr (fun a _ => by simp [hdfU])
    constructor
    · intro r hr
      rw [hst, hnv0] at hr
      rcases List.mem_append.mp hr with hr1 | hr1
      · rw [hE] at hr1
        obtain ⟨r0, hr0, rfl⟩ := List.mem_map.mp hr1
        by_cases hop : r0.record_end = none
        · have hkeks : r0.key ∈ eks := by
            rw [heksdef, hck, hdk]
            rw [hcurKeys]
            exact List.mem_append.mpr (Or.inr (List.mem_map.mpr
              ⟨r0, List.mem_filter.mpr ⟨hr0, by simp [hop]⟩, rfl⟩))
          unfold closeIf
          rw [if_pos ⟨hop, hkeks⟩]
          simp [closeRec]
        · unfold closeIf
          rw [if_neg (fun hc => hop hc.1)]
          exact hop
      · exact absurd hr1 (by simp [startedRecords])
    · rw [hst, hnv0]
      simp only [startedRecords, List.append_nil]
      rw [hE]
      exact List.length_map _ _


/-- C1 witness: one call on an empty table establishes the invariant. -/
theorem scd_chain_invariant_witness :
    Inv (TableState.mk [Rec.mk 0 [1] [some 10] 1 none] 1) 1 :=
  (scd_chain_invariant (TableState.mk [] 0)
    (TableState.mk [Rec.mk 0 [1] [some 10] 1 none] 1)
    ["id"] ["name"] (DataFrame.mk ["id"] [none] ["name"] [([1], [some 10])])
    (some 1) 0 0
    ⟨by simp, by simp, by simp, fun _ => rfl⟩ (Nat.zero_le _)
    (by decide) rfl).1

/-- C1 counterexample to contiguity as claimed: add key 1, delete it, then
re-add it; the two version intervals `[1, 2)` and `[3, NULL)` of key 1 are
non-overlapping but not contiguous (the closed end 2 differs from the next
start 3), so the contiguity part of the claim fails on this call sequence. -/
theorem scd_contiguity_counterexample :
    update_records (TableState.mk [] 0) ["id"] ["name"]
        (DataFrame.mk ["id"] [none] ["name"] [([1], [some 10])]) (some 1) 0 =
      .ok (TableState.mk [Rec.mk 0 [1] [some 10] 1 none] 1) ∧
    update_records (TableState.mk [Rec.mk 0 [1] [some 10] 1 none] 1) ["id"] ["name"]
        (DataFrame.mk ["id"] [none] ["name"] []) (some 2) 0 =
      .ok (TableState.mk [Rec.mk 0 [1] [some 10] 1 (some 2)] 1) ∧
    update_records (TableState.mk [Rec.mk 0 [1] [some 10] 1 (some 2)] 1) ["id"] ["name"]
        (DataFrame.mk ["id"] [none] ["name"] [([1], [some 10])]) (some 3) 0 =
      .ok (TableState.mk [Rec.mk 0 [1] [some 10] 1 (some 2),
        Rec.mk 1 [1] [some 10] 3 none] 2) ∧
    chainEq (keyRecords (TableState.mk [Rec.mk 0 [1] [some 10] 1 (some 2),
      Rec.mk 1 [1] [some 10] 3 none] 2) [1]) = false :=
  ⟨rfl, rfl, rfl, rfl⟩

/-- C4: `update_records` closes exactly the OPEN records whose key is
changed or deleted, inserts exactly one OPEN record per changed or new row,
stamps both sides with the one shared timestamp (the supplied `update_time`,
defaulting to `now`), and writes nothing for unchanged rows. -/
theorem scd_update_records_effect (st : TableState) (idx val : List String)
    (U : DataFrame) (ut : Option Nat) (now : Nat) (n d c u : DataFrame)
    (st' : TableState)
    (hid : (st.records.map (fun r => r.record_id)).Nodup)
    (hcmp : compare_dataframes (currentValuesDf idx val st) U = .ok (n, d, c, u))
    (h : update_records st idx val U ut now = .ok st') :
    st'.records =
      st.records.map (closeIf (ut.getD now) (dfKeys c ++ dfKeys d)) ++
      startedRecords st.nextId (ut.getD now) (c.rows ++ n.rows) ∧
    st'.nextId = st.nextId + (c.rows ++ n.rows).length ∧
    (∀ r ∈ startedRecords st.nextId (ut.getD now) (c.rows ++ n.rows),
      r.record_start = ut.getD now ∧ r.record_end = none) ∧
    (c.rows ++ n.rows).map Prod.fst = dfKeys c ++ dfKeys n ∧
    (∀ r ∈ st.records, r.key ∈ dfKeys u →
      closeIf (ut.getD now) (dfKeys c ++ dfKeys d) r = r) := by
  obtain ⟨n2, d2, c2, u2, hcmp2, hst⟩ := update_records_ok_elim h
  rw [hcmp] at hcmp2
  have htup := Except.ok.inj hcmp2
  simp only [Prod.mk.injEq] at htup
  obtain ⟨he1, he2, he3, he4⟩ := htup
  subst he1 he2 he3 he4
  subst hst
  refine ⟨?_, rfl, ?_, ?_, ?_⟩
  · show endedRecords st (ut.getD now) (dfKeys c ++ dfKeys d) ++
      startedRecords st.nextId (ut.getD now) (c.rows ++ n.rows) = _
    rw [endedRecords_eq_map st _ _ hid]
  · intro r hr
    obtain ⟨-, ha, hb, -, -⟩ := startedRecords_mem hr
    exact ⟨ha, hb⟩
  · rw [List.map_append]
    rfl
  · intro r hr hku
    obtain ⟨-, -, -, hn, hd, hc, hu⟩ := compare_ok_inv hcmp
    subst hn hd hc hu
    rw [dfKeys_selectRows] at hku
    unfold closeIf
    rw [if_neg]
    rintro ⟨-, hkcd⟩
    rw [dfKeys_selectRows, dfKeys_selectRows] at hkcd
    rcases List.mem_append.mp hkcd with hk | hk
    · have hx1 := (mem_changedKeysOf.mp hk).2
      have hx2 := (mem_unchangedKeysOf.mp hku).2
      rw [hx1] at hx2
      cases hx2
    · exact (mem_deletedKeysOf.mp hk).2 (mem_unchangedKeysOf.mp hku).1.2

/-- C4 witness at a concrete update: two started rows advance the id
generator by two. -/
theorem scd_update_records_effect_witness :
    (TableState.mk [Rec.mk 0 [1] [some 10] 0 (some 5), Rec.mk 1 [1] [some 11] 5 none,
      Rec.mk 2 [2] [some 7] 5 none] 3).nextId =
    (TableState.mk [Rec.mk 0 [1] [some 10] 0 none] 1).nextId +
      ((DataFrame.mk ["id"] [none] ["name"] [([1], [some 11])]).rows ++
       (DataFrame.mk ["id"] [none] ["name"] [([2], [some 7])]).rows).length :=
  (scd_update_records_effect (TableState.mk [Rec.mk 0 [1] [some 10] 0 none] 1)
    ["id"] ["name"]
    (DataFrame.mk ["id"] [none] ["name"] [([1], [some 11]), ([2], [some 7])])
    (some 5) 0
    (DataFrame.mk ["id"] [none] ["name"] [([2], [some 7])])
    (DataFrame.mk ["id"] [none] ["name"] [])
    (DataFrame.mk ["id"] [none] ["name"] [([1], [some 11])])
    (DataFrame.mk ["id"] [none] ["name"] [])
    (TableState.mk [Rec.mk 0 [1] [some 10] 0 (some 5), Rec.mk 1 [1] [some 11] 5 none,
      Rec.mk 2 [2] [some 7] 5 none] 3)
    (by decide) rfl rfl).2.1

lemma map_eq_self_of_id {α : Type} (f : α → α) :
    ∀ l : List α, (∀ a ∈ l, f a = a) → l.map f = l
  | [], _ => rfl
  | a :: l, h => by
    rw [List.map_cons, h a (by simp),
      map_eq_self_of_id f l (fun b hb => h b (by simp [hb]))]

lemma endedRecords_nil (st : TableState) (t : Nat) :
    endedRecords st t [] = st.records := by
  unfold endedRecords endRecordIdsOf
  rw [show (openRecs st).filter (fun r => decide (r.key ∈ ([] : List Key))) = []
    from List.filter_eq_nil.mpr (fun r _ => by simp)]
  simp

/-- C5: calling `update_records` a second time with the same updates table
is a no-op on the store: the second diff classifies every key as unchanged,
so nothing is closed and nothing is started, and the state is returned
exactly as it was. -/
theorem scd_idempotent (st st' : TableState) (idx val : List String)
    (U : DataFrame) (ut1 ut2 : Option Nat) (now1 now2 : Nat)
    (hid : (st.records.map (fun r => r.record_id)).Nodup)
    (hopen : ((openRecs st).map (fun r => r.key)).Nodup)
    (h1 : update_records st idx val U ut1 now1 = .ok st') :
    update_records st' idx val U ut2 now2 = .ok st' := by
  obtain ⟨hs1, hs2, hs3, hst⟩ := update_records_ok_explicit h1
  set t := ut1.getD now1 with htdef
  set cur := currentValuesDf idx val st with hcurdef
  set eks := changedKeysOf cur U ++ deletedKeysOf cur U with heksdef
  set nv := newValuesOf cur U with hnvdef
  have hE : endedRecords st t eks = st.records.map (closeIf t eks) :=
    endedRecords_eq_map st t eks hid
  have hcurKeys : dfKeys cur = (openRecs st).map (fun r => r.key) :=
    dfKeys_currentValuesDf idx val st
  have hvalU : ∀ x ∈ val, x ∈ U.columnNames := by
    have := (sameSet_eq_true.mp hs3).1
    exact this
  have hcols : commonColumns cur U = val := by
    unfold commonColumns
    show val.filter _ = val
    exact List.filter_eq_self.mpr (fun a ha => by simp [hvalU a ha])
  have hSopen : ∀ r ∈ startedRecords st.nextId t nv, r.record_end = none :=
    fun r hr => (startedRecords_mem hr).2.2.1
  -- the OPEN records after the first call: untouched unchanged records plus
  -- the freshly started ones
  have hopen' : openRecs st' =
      st.records.filter
        (fun r => decide (r.record_end = none) && ! decide (r.key ∈ eks)) ++
      startedRecords st.nextId t nv := by
    rw [hst]
    unfold openRecs
    show (endedRecords st t eks ++ startedRecords st.nextId t nv).filter _ = _
    rw [List.filter_append, hE, filter_of_map]
    have hpred : ∀ r ∈ st.records,
        (decide ((closeIf t eks r).record_end = none)) =
        (decide (r.record_end = none) && ! decide (r.key ∈ eks)) := by
      intro r _
      unfold closeIf
      by_cases hb1 : r.record_end = none
      · by_cases hb2 : r.key ∈ eks
        · rw [if_pos ⟨hb1, hb2⟩]
          simp [closeRec, hb2]
        · rw [if_neg (fun hc => hb2 hc.2)]
          simp [hb1, hb2]
      · rw [if_neg (fun hc => hb1 hc.1)]
        simp [hb1]
    rw [List.filter_congr hpred]
    congr 1
    · apply map_eq_self_of_id
      intro r hr
      have hq := List.mem_filter.mp hr
      rw [Bool.and_eq_true] at hq
      have hneks : r.key ∉ eks := by
        have := hq.2.2
        simpa using this
      unfold closeIf
      rw [if_neg (fun hc => hneks hc.2)]
    · exact List.filter_eq_self.mpr (fun r hr => by simp [hSopen r hr])
  have hOEelim : ∀ r, r ∈ st.records.filter
      (fun r => decide (r.record_end = none) && ! decide (r.key ∈ eks)) →
      r ∈ openRecs st ∧ r.key ∉ eks := by
    intro r hr
    have hq := List.mem_filter.mp hr
    rw [Bool.and_eq_true] at hq
    refine ⟨List.mem_filter.mpr ⟨hq.1, hq.2.1⟩, ?_⟩
    have := hq.2.2
    simpa using this
  have hcur2Keys : dfKeys (currentValuesDf idx val st') =
      (openRecs st').map (fun r => r.key) := dfKeys_currentValuesDf idx val st'
  -- every OPEN key after the first call is an update key
  have hB : ∀ k ∈ dfKeys (currentValuesDf idx val st'), k ∈ dfKeys U := by
    intro k hk
    rw [hcur2Keys, hopen', List.map_append] at hk
    rcases List.mem_append.mp hk with hk1 | hk1
    · obtain ⟨r, hr, rfl⟩ := List.mem_map.mp hk1
      obtain ⟨hro, hrneks⟩ := hOEelim r hr
      have hkcur : r.key ∈ dfKeys cur := by
        rw [hcurKeys]
        exact List.mem_map.mpr ⟨r, hro, rfl⟩
      by_contra hkU
      exact hrneks (List.mem_append.mpr
        (Or.inr (mem_deletedKeysOf.mpr ⟨hkcur, hkU⟩)))
    · rw [startedRecords_map_key, hnvdef, newValuesOf_map_fst] at hk1
      rcases List.mem_append.mp hk1 with hk2 | hk2
      · exact (mem_changedKeysOf.mp hk2).1.2
      · exact (mem_newKeysOf.mp hk2).1
  -- every update key is OPEN after the first call
  have hA : ∀ k ∈ dfKeys U, k ∈ dfKeys (currentValuesDf idx val st') := by
    intro k hk
    rw [hcur2Keys, hopen', List.map_append]
    apply List.mem_append.mpr
    by_cases hkcur : k ∈ dfKeys cur
    · by_cases hdiff : rowDiff cur U k = true
      · refine Or.inr ?_
        rw [startedRecords_map_key, hnvdef, newValuesOf_map_fst]
        exact List.mem_append.mpr
          (Or.inl (mem_changedKeysOf.mpr ⟨⟨hkcur, hk⟩, hdiff⟩))
      · refine Or.inl ?_
        rw [hcurKeys] at hkcur
        obtain ⟨r, hro, rfl⟩ := List.mem_map.mp hkcur
        refine List.mem_map.mpr ⟨r, List.mem_filter.mpr
          ⟨(List.mem_filter.mp hro).1, ?_⟩, rfl⟩
        rw [Bool.and_eq_true]
        refine ⟨(List.mem_filter.mp hro).2, ?_⟩
        have hneks : r.key ∉ eks := by
          intro hmem
          rcases List.mem_append.mp hmem with hm | hm
          · exact hdiff (mem_changedKeysOf.mp hm).2
          · exact (mem_deletedKeysOf.mp hm).2 hk
        simpa using hneks
    · refine Or.inr ?_
      rw [startedRecords_map_key, hnvdef, newValuesOf_map_fst]
      exact List.mem_append.mpr (Or.inr (mem_newKeysOf.mpr ⟨hk, hkcur⟩))
  -- the stored values of every OPEN record agree cell-by-cell with `U`
  have hCells : ∀ r ∈ openRecs st', ∀ col ∈ val,
      cellAt val r.vals col = cellOf U r.key col := by
    intro r hr col hcol
    rw [hopen'] at hr
    rcases List.mem_append.mp hr with hr1 | hr1
    · obtain ⟨hro, hrneks⟩ := hOEelim r hr1
      have hkcur : r.key ∈ dfKeys cur := by
        rw [hcurKeys]
        exact List.mem_map.mpr ⟨r, hro, rfl⟩
      have hkU : r.key ∈ dfKeys U := by
        by_contra hkU
        exact hrneks (List.mem_append.mpr
          (Or.inr (mem_deletedKeysOf.mpr ⟨hkcur, hkU⟩)))
      have hdiff : rowDiff cur U r.key = false := by
        cases hd : rowDiff cur U r.key with
        | false => rfl
        | true =>
          exact absurd (List.mem_append.mpr
            (Or.inl (mem_changedKeysOf.mpr ⟨⟨hkcur, hkU⟩, hd⟩))) hrneks
      have hpt := rowDiff_eq_false_iff.mp hdiff col (by exact hcol)
        (hvalU col hcol)
      have hlk : lookupKey cur.rows r.key = some r.vals := by
        show lookupKey ((openRecs st).map (fun r2 => (r2.key, r2.vals))) r.key =
          some r.vals
        apply lookupKey_nodup
        · rw [map_fst_pairs]
          exact hopen
        · exact List.mem_map.mpr ⟨r, hro, rfl⟩
      unfold cellOf at hpt
      rw [hlk] at hpt
      exact hpt
    · obtain ⟨hnvmem, -, -, -, -⟩ := startedRecords_mem hr1
      have hvals : r.vals = (commonColumns cur U).map
          (fun c2 => cellOf U r.key c2) := by
        rw [hnvdef] at hnvmem
        unfold newValuesOf selectRows at hnvmem
        rcases List.mem_append.mp hnvmem with hm | hm <;>
        · obtain ⟨k0, -, heq⟩ := List.mem_map.mp hm
          injection heq with he1 he2
          subst he1
          exact he2.symm
      rw [hvals, hcols]
      exact cellAt_map_self _ val col hcol
  -- the second diff classifies every key as unchanged
  have hC : ∀ k, k ∈ dfKeys (currentValuesDf idx val st') → k ∈ dfKeys U →
      rowDiff (currentValuesDf idx val st') U k = false := by
    intro k hk2 _
    rw [rowDiff_eq_false_iff]
    intro col hcol hcolU
    obtain ⟨v, hv⟩ := @lookupKey_isSome (currentValuesDf idx val st').rows k hk2
    have hvmem := lookupKey_mem hv
    obtain ⟨r, hr, hpr⟩ := List.mem_map.mp hvmem
    injection hpr with hrk hrv
    subst hrk
    show cellAt (currentValuesDf idx val st').columnNames
      ((lookupKey (currentValuesDf idx val st').rows r.key).getD []) col =
      cellOf U r.key col
    rw [hv]
    show cellAt val v col = cellOf U r.key col
    rw [← hrv]
    exact hCells r hr col hcol
  have hck2 : changedKeysOf (currentValuesDf idx val st') U = [] := by
    unfold changedKeysOf
    apply List.filter_eq_nil.mpr
    intro k hk
    have hkm := List.mem_filter.mp hk
    simp only [decide_eq_true_eq] at hkm
    simp [hC k hkm.1 hkm.2]
  have hdk2 : deletedKeysOf (currentValuesDf idx val st') U = [] := by
    unfold deletedKeysOf
    apply List.filter_eq_nil.mpr
    intro k hk
    simp [hB k hk]
  have hnk2 : newKeysOf (currentValuesDf idx val st') U = [] := by
    unfold newKeysOf
    apply List.filter_eq_nil.mpr
    intro k hk
    simp [hA k hk]
  have hcmp2 := @compare_dataframes_ok_of_checks (currentValuesDf idx val st') U
    hs1 hs2 hs3
  unfold update_records
  rw [hcmp2]
  simp only [dfKeys_selectRows, hck2, hdk2, hnk2]
  simp only [selectRows, List.map_nil, List.nil_append, List.append_nil,
    List.length_nil, Nat.add_zero]
  rw [endedRecords_nil]
  simp [startedRecords]

/-- C5 witness: resynchronizing the same one-row table is a no-op. -/
theorem scd_idempotent_witness :
    update_records (TableState.mk [Rec.mk 0 [1] [some 10] 1 none] 1) ["id"] ["name"]
      (DataFrame.mk ["id"] [none] ["name"] [([1], [some 10])]) (some 2) 0 =
      .ok (TableState.mk [Rec.mk 0 [1] [some 10] 1 none] 1) :=
  scd_idempotent (TableState.mk [] 0)
    (TableState.mk [Rec.mk 0 [1] [some 10] 1 none] 1)
    ["id"] ["name"] (DataFrame.mk ["id"] [none] ["name"] [([1], [some 10])])
    (some 1) (some 2) 0 0 (by decide) (by decide) rfl

end WfStudentData
